import Mathlib

set_option maxRecDepth 4096

/-!
# Verification of the OpenTTD savegame codec (Rust crate `openttd_savegame`)

Shallow embedding of the savegame codec found in
`src/rust/openttd_savegame/src/{gamma,chunk,header,savegame}.rs` and of the
big-endian primitive reader from `src/rust/openttd_core/src/endian.rs`.

Modelling conventions:
* Rust byte slices (`&[u8]`) become `List Nat`; theorems whose truth depends on
  bytes being in range carry `b < 256` hypotheses.
* Rust `u64`/`usize` arithmetic that cannot overflow at the sizes used by the
  format is ordinary `Nat` arithmetic; each `as u8` truncating cast becomes an
  explicit `% 256`.
* `Result<T, E>` becomes `Except E T`.
* A Rust panic (out-of-bounds indexing or slicing) is modelled by `Option`:
  functions whose source contains unguarded indexing return
  `Option (Except ..)`, and `none` means the source panics.
* Loops become fuel-indexed recursion; fuel is chosen at each call site to
  dominate the number of iterations, and every theorem below either
  quantifies over sufficient fuel or instantiates it concretely.
-/

namespace OpenTTDSave

/-- Error type of `openttd_core::error::CoreError`, together with the
`BufferTooSmall` variant that the savegame crate constructs at its use sites
in `gamma.rs` and `chunk.rs`. -/
inductive CoreError where
  | bufferTooSmall
  | unexpectedEof
  | invalidData (msg : String)
  deriving DecidableEq, Repr

/-- `gamma.rs`: `decode_gamma`.  Reads a gamma-encoded value, returning the
value and the number of bytes consumed.  The source computes a `byte_count`
from the leading-ones pattern of the first byte, checks the buffer length,
and then assembles the value in a `match byte_count`; here each `byte_count`
case is inlined into its branch of the leading-ones test, which is the same
control flow. -/
def decode_gamma (buf : List Nat) : Except CoreError (Nat × Nat) :=
  match buf with
  | [] => Except.error CoreError.bufferTooSmall
  | first_byte :: _ =>
    if first_byte &&& 0x80 = 0 then
      Except.ok (first_byte, 1)
    else if first_byte &&& 0x40 = 0 then
      if buf.length < 2 then Except.error CoreError.bufferTooSmall
      else Except.ok (((first_byte &&& 0x3F) <<< 8) ||| buf.getD 1 0, 2)
    else if first_byte &&& 0x20 = 0 then
      if buf.length < 3 then Except.error CoreError.bufferTooSmall
      else
        Except.ok
          (((first_byte &&& 0x1F) <<< 16) ||| (buf.getD 1 0 <<< 8) |||
              buf.getD 2 0,
            3)
    else if first_byte &&& 0x10 = 0 then
      if buf.length < 4 then Except.error CoreError.bufferTooSmall
      else
        Except.ok
          (((first_byte &&& 0x0F) <<< 24) ||| (buf.getD 1 0 <<< 16) |||
              (buf.getD 2 0 <<< 8) ||| buf.getD 3 0,
            4)
    else
      if buf.length < 5 then Except.error CoreError.bufferTooSmall
      else
        Except.ok
          (((first_byte &&& 0x07) <<< 32) ||| (buf.getD 1 0 <<< 24) |||
              (buf.getD 2 0 <<< 16) ||| (buf.getD 3 0 <<< 8) ||| buf.getD 4 0,
            5)

/-- `gamma.rs`: `encode_gamma`.  Each `as u8` cast is an explicit `% 256`. -/
def encode_gamma (value : Nat) : List Nat :=
  if value ≤ 0x7F then
    [value]
  else if value ≤ 0x3FFF then
    [0x80 ||| (value >>> 8) % 256, value &&& 0xFF]
  else if value ≤ 0x1FFFFF then
    [0xC0 ||| (value >>> 16) % 256, (value >>> 8) &&& 0xFF, value &&& 0xFF]
  else if value ≤ 0x0FFFFFFF then
    [0xE0 ||| (value >>> 24) % 256, (value >>> 16) &&& 0xFF,
      (value >>> 8) &&& 0xFF, value &&& 0xFF]
  else
    [0xF0, (value >>> 24) &&& 0xFF, (value >>> 16) &&& 0xFF,
      (value >>> 8) &&& 0xFF, value &&& 0xFF]


/-! ## `openttd_core::endian::BigEndianReader` -/

/-- `endian.rs`: cursor-based big-endian reader over a byte slice. -/
structure BigEndianReader where
  buf : List Nat
  pos : Nat
  deriving Repr

def BigEndianReader.new (buf : List Nat) : BigEndianReader := ⟨buf, 0⟩

def BigEndianReader.remaining (r : BigEndianReader) : Nat := r.buf.length - r.pos

/-- `endian.rs`: `read_exact::<N>`. -/
def BigEndianReader.read_exact (n : Nat) (r : BigEndianReader) :
    Except CoreError (List Nat × BigEndianReader) :=
  if r.remaining < n then Except.error CoreError.unexpectedEof
  else Except.ok ((r.buf.drop r.pos).take n, ⟨r.buf, r.pos + n⟩)

/-- `endian.rs`: `read_u16` = `u16::from_be_bytes` of two bytes. -/
def BigEndianReader.read_u16 (r : BigEndianReader) :
    Except CoreError (Nat × BigEndianReader) :=
  match r.read_exact 2 with
  | Except.error e => Except.error e
  | Except.ok (bytes, r') => Except.ok (256 * bytes.getD 0 0 + bytes.getD 1 0, r')

/-- `endian.rs`: `read_u24` (3-byte big-endian). -/
def BigEndianReader.read_u24 (r : BigEndianReader) :
    Except CoreError (Nat × BigEndianReader) :=
  if r.remaining < 3 then Except.error CoreError.unexpectedEof
  else
    let b1 := r.buf.getD r.pos 0
    let b2 := r.buf.getD (r.pos + 1) 0
    let b3 := r.buf.getD (r.pos + 2) 0
    Except.ok ((b1 <<< 16) ||| (b2 <<< 8) ||| b3, ⟨r.buf, r.pos + 3⟩)

/-! ## `chunk.rs` -/

/-- `chunk.rs`: the five chunk encodings. -/
inductive ChunkType where
  | Riff
  | Array
  | SparseArray
  | Table
  | SparseTable
  deriving DecidableEq, Repr

/-- `chunk.rs`: `impl TryFrom<u8> for ChunkType` — keyed on the low nibble. -/
def ChunkType.tryFrom (value : Nat) : Except CoreError ChunkType :=
  match value &&& 0x0F with
  | 0 => Except.ok ChunkType.Riff
  | 1 => Except.ok ChunkType.Array
  | 2 => Except.ok ChunkType.SparseArray
  | 3 => Except.ok ChunkType.Table
  | 4 => Except.ok ChunkType.SparseTable
  | _ => Except.error (CoreError.invalidData "Invalid chunk type")

/-- `chunk.rs`: `ChunkHeader` — 4 tag bytes, chunk type, raw mode byte. -/
structure ChunkHeader where
  tag : List Nat
  chunk_type : ChunkType
  mode_byte : Nat
  deriving DecidableEq, Repr

/-- `chunk.rs`: `ChunkHeader::parse`. -/
def ChunkHeader.parse (buf : List Nat) : Except CoreError (ChunkHeader × Nat) :=
  if buf.length < 5 then Except.error CoreError.bufferTooSmall
  else
    let tag := buf.take 4
    if tag = [0, 0, 0, 0] then
      Except.ok ({ tag := tag, chunk_type := ChunkType.Riff, mode_byte := 0 }, 5)
    else
      let mode_byte := buf.getD 4 0
      match ChunkType.tryFrom mode_byte with
      | Except.error e => Except.error e
      | Except.ok chunk_type =>
        Except.ok (⟨tag, chunk_type, mode_byte⟩, 5)

/-- `chunk.rs`: `ChunkHeader::is_end_marker`. -/
def ChunkHeader.is_end_marker (h : ChunkHeader) : Bool :=
  h.tag = [0, 0, 0, 0]

/-- `chunk.rs`: the eleven table field data types. -/
inductive DataType where
  | I8
  | U8
  | I16
  | U16
  | I32
  | U32
  | I64
  | U64
  | StringId
  | Str
  | Struct
  deriving DecidableEq, Repr

/-- `chunk.rs`: `impl TryFrom<u8> for DataType` — keyed on the low nibble.
(The Rust variant `String` is called `Str` here to avoid shadowing.) -/
def DataType.tryFrom (value : Nat) : Except CoreError DataType :=
  match value &&& 0x0F with
  | 1 => Except.ok DataType.I8
  | 2 => Except.ok DataType.U8
  | 3 => Except.ok DataType.I16
  | 4 => Except.ok DataType.U16
  | 5 => Except.ok DataType.I32
  | 6 => Except.ok DataType.U32
  | 7 => Except.ok DataType.I64
  | 8 => Except.ok DataType.U64
  | 9 => Except.ok DataType.StringId
  | 10 => Except.ok DataType.Str
  | 11 => Except.ok DataType.Struct
  | _ => Except.error (CoreError.invalidData ("Invalid data type: " ++ toString value))

/-- `chunk.rs`: `TableField`.  The source stores `key` as a Rust `String`;
since the bytes of a valid-UTF-8 key determine that string exactly, the key
is kept here as its raw bytes. -/
structure TableField where
  data_type : DataType
  key : List Nat
  is_list : Bool
  deriving DecidableEq, Repr

/-- `chunk.rs`: `TableHeader`. -/
structure TableHeader where
  fields : List TableField
  deriving DecidableEq, Repr

/-- Modelled from the spec: validity of a byte sequence under UTF-8, the
check performed by Rust's `String::from_utf8` (an external standard-library
collaborator of `TableHeader::parse`).  Follows the standard UTF-8 byte
ranges (RFC 3629). -/
def utf8Valid : List Nat → Bool
  | [] => true
  | b :: rest =>
    if b < 0x80 then utf8Valid rest
    else if 0xC2 ≤ b ∧ b ≤ 0xDF then
      match rest with
      | c1 :: r => decide (0x80 ≤ c1 ∧ c1 ≤ 0xBF) && utf8Valid r
      | [] => false
    else if b = 0xE0 then
      match rest with
      | c1 :: c2 :: r =>
        decide (0xA0 ≤ c1 ∧ c1 ≤ 0xBF ∧ 0x80 ≤ c2 ∧ c2 ≤ 0xBF) && utf8Valid r
      | _ => false
    else if (0xE1 ≤ b ∧ b ≤ 0xEC) ∨ b = 0xEE ∨ b = 0xEF then
      match rest with
      | c1 :: c2 :: r =>
        decide (0x80 ≤ c1 ∧ c1 ≤ 0xBF ∧ 0x80 ≤ c2 ∧ c2 ≤ 0xBF) && utf8Valid r
      | _ => false
    else if b = 0xED then
      match rest with
      | c1 :: c2 :: r =>
        decide (0x80 ≤ c1 ∧ c1 ≤ 0x9F ∧ 0x80 ≤ c2 ∧ c2 ≤ 0xBF) && utf8Valid r
      | _ => false
    else if b = 0xF0 then
      match rest with
      | c1 :: c2 :: c3 :: r =>
        decide (0x90 ≤ c1 ∧ c1 ≤ 0xBF ∧ 0x80 ≤ c2 ∧ c2 ≤ 0xBF ∧
          0x80 ≤ c3 ∧ c3 ≤ 0xBF) && utf8Valid r
      | _ => false
    else if 0xF1 ≤ b ∧ b ≤ 0xF3 then
      match rest with
      | c1 :: c2 :: c3 :: r =>
        decide (0x80 ≤ c1 ∧ c1 ≤ 0xBF ∧ 0x80 ≤ c2 ∧ c2 ≤ 0xBF ∧
          0x80 ≤ c3 ∧ c3 ≤ 0xBF) && utf8Valid r
      | _ => false
    else if b = 0xF4 then
      match rest with
      | c1 :: c2 :: c3 :: r =>
        decide (0x80 ≤ c1 ∧ c1 ≤ 0x8F ∧ 0x80 ≤ c2 ∧ c2 ≤ 0xBF ∧
          0x80 ≤ c3 ∧ c3 ≤ 0xBF) && utf8Valid r
      | _ => false
    else false

/-- Field-definition loop of `TableHeader::parse` (`while offset < header_end`).
The source indexes `buf[offset]` and slices
`buf[offset .. offset + key_length]` without bounds checks, so those accesses
are modelled with explicit guards whose failure produces `none` (= the source
panics).  Fuel dominates the iteration count at the call site: the offset
strictly increases every iteration and the loop runs while
`offset < header_end`. -/
def tableHeaderLoop (fuel : Nat) (buf : List Nat) (offset header_end : Nat)
    (fields : List TableField) :
    Option (Except CoreError (List TableField × Nat)) :=
  match fuel with
  | 0 => none
  | fuel + 1 =>
    if offset < header_end then
      if offset < buf.length then
        let type_byte := buf.getD offset 0
        let offset1 := offset + 1
        if type_byte = 0 then some (Except.ok (fields, offset1))
        else
          let is_list := type_byte &&& 0x10 != 0
          match DataType.tryFrom type_byte with
          | Except.error e => some (Except.error e)
          | Except.ok data_type =>
            match decode_gamma (buf.drop offset1) with
            | Except.error e => some (Except.error e)
            | Except.ok (key_length, bytes_read) =>
              let offset2 := offset1 + bytes_read
              if offset2 + key_length ≤ buf.length then
                let key := (buf.drop offset2).take key_length
                if utf8Valid key then
                  tableHeaderLoop fuel buf (offset2 + key_length) header_end
                    (fields ++ [⟨data_type, key, is_list⟩])
                else some (Except.error (CoreError.invalidData "invalid utf-8"))
              else none
      else none
    else some (Except.ok (fields, offset))

/-- `chunk.rs`: `TableHeader::parse`.  `none` models a panic of the source
(out-of-bounds `buf[offset]` or key slice).  Fuel `header_size` dominates the
loop's iteration count (each iteration advances the offset by at least one,
and the loop runs while `offset < bytes_read + header_size - 1`). -/
def TableHeader.parse (buf : List Nat) :
    Option (Except CoreError (TableHeader × Nat)) :=
  match decode_gamma buf with
  | Except.error e => some (Except.error e)
  | Except.ok (header_size, bytes_read) =>
    if header_size = 0 then
      some (Except.error (CoreError.invalidData "Table has no header"))
    else
      let header_end := bytes_read + header_size - 1
      match tableHeaderLoop header_size buf bytes_read header_end [] with
      | none => none
      | some (Except.error e) => some (Except.error e)
      | some (Except.ok (fields, offset)) =>
        some (Except.ok ({ fields := fields }, offset))

/-- `chunk.rs`: `parse_riff_chunk`. -/
def parse_riff_chunk (header : ChunkHeader) (buf : List Nat) :
    Except CoreError (List Nat × Nat) :=
  if buf.length < 3 then Except.error CoreError.bufferTooSmall
  else
    match (BigEndianReader.new buf).read_u24 with
    | Except.error e => Except.error e
    | Except.ok (length_low, _) =>
      let length := length_low ||| ((header.mode_byte >>> 4) <<< 24)
      if buf.length < 3 + length then Except.error CoreError.bufferTooSmall
      else Except.ok ((buf.drop 3).take length, 3 + length)

/-- Record loop of `parse_array_chunk`.  The source's loop cannot panic (all
its indexing is guarded), so the result is a plain `Except`.  The fuel-0
branch is unreachable at the call site (each iteration consumes at least one
byte of `buf`, so `buf.length + 1` iterations never occur). -/
def arrayChunkLoop (fuel : Nat) (header : ChunkHeader) (buf : List Nat)
    (offset implicit_index : Nat) (items : List (Nat × List Nat)) :
    Except CoreError (List (Nat × List Nat) × Nat) :=
  match fuel with
  | 0 => Except.error CoreError.bufferTooSmall
  | fuel + 1 =>
    match decode_gamma (buf.drop offset) with
    | Except.error e => Except.error e
    | Except.ok (size_plus_one, bytes_read) =>
      let offset1 := offset + bytes_read
      if size_plus_one = 0 then Except.ok (items, offset1)
      else
        let size := size_plus_one - 1
        match (if header.chunk_type = ChunkType.SparseArray then
                match decode_gamma (buf.drop offset1) with
                | Except.error e => Except.error e
                | Except.ok (idx, n) => Except.ok (idx, offset1 + n, implicit_index)
               else
                Except.ok (implicit_index, offset1, implicit_index + 1) :
               Except CoreError (Nat × Nat × Nat)) with
      | Except.error e => Except.error e
      | Except.ok (index, offset2, implicit2) =>
        if 0 < size then
          if buf.length < offset2 + size then Except.error CoreError.bufferTooSmall
          else
            arrayChunkLoop fuel header buf (offset2 + size) implicit2
              (items ++ [(index, (buf.drop offset2).take size)])
        else
          let implicit3 :=
            if header.chunk_type = ChunkType.Array then implicit2 + 1
            else implicit2
          arrayChunkLoop fuel header buf offset2 implicit3 items

/-- `chunk.rs`: `parse_array_chunk` (ARRAY / SPARSE_ARRAY chunks). -/
def parse_array_chunk (header : ChunkHeader) (buf : List Nat) :
    Except CoreError (List (Nat × List Nat) × Nat) :=
  arrayChunkLoop (buf.length + 1) header buf 0 0 []

/-- Record loop of `parse_table_chunk` — the source duplicates the array
record loop with `SparseTable`/`Table` in place of `SparseArray`/`Array`,
and so does this embedding. -/
def tableChunkLoop (fuel : Nat) (header : ChunkHeader) (buf : List Nat)
    (offset implicit_index : Nat) (items : List (Nat × List Nat)) :
    Except CoreError (List (Nat × List Nat) × Nat) :=
  match fuel with
  | 0 => Except.error CoreError.bufferTooSmall
  | fuel + 1 =>
    match decode_gamma (buf.drop offset) with
    | Except.error e => Except.error e
    | Except.ok (size_plus_one, bytes_read) =>
      let offset1 := offset + bytes_read
      if size_plus_one = 0 then Except.ok (items, offset1)
      else
        let size := size_plus_one - 1
        match (if header.chunk_type = ChunkType.SparseTable then
                match decode_gamma (buf.drop offset1) with
                | Except.error e => Except.error e
                | Except.ok (idx, n) => Except.ok (idx, offset1 + n, implicit_index)
               else
                Except.ok (implicit_index, offset1, implicit_index + 1) :
               Except CoreError (Nat × Nat × Nat)) with
      | Except.error e => Except.error e
      | Except.ok (index, offset2, implicit2) =>
        if 0 < size then
          if buf.length < offset2 + size then Except.error CoreError.bufferTooSmall
          else
            tableChunkLoop fuel header buf (offset2 + size) implicit2
              (items ++ [(index, (buf.drop offset2).take size)])
        else
          let implicit3 :=
            if header.chunk_type = ChunkType.Table then implicit2 + 1
            else implicit2
          tableChunkLoop fuel header buf offset2 implicit3 items

/-- `chunk.rs`: `parse_table_chunk` (TABLE / SPARSE_TABLE chunks).  `none`
models a panic (which can only arise inside `TableHeader::parse`). -/
def parse_table_chunk (header : ChunkHeader) (buf : List Nat) :
    Option (Except CoreError (TableHeader × List (Nat × List Nat) × Nat)) :=
  match TableHeader.parse buf with
  | none => none
  | some (Except.error e) => some (Except.error e)
  | some (Except.ok (table_header, bytes_read)) =>
    match tableChunkLoop (buf.length + 1) header buf bytes_read 0 [] with
    | Except.error e => some (Except.error e)
    | Except.ok (items, offset) => some (Except.ok (table_header, items, offset))


/-! ## `header.rs` -/

/-- Modelled from the spec: `CompressionType` lives in
`openttd_savegame/src/types.rs`, a module declared by `lib.rs` but not present
under `src/`; the spec (§3) fixes it as the enum `{None, Zlib, Lzma, Lzo}`. -/
inductive CompressionType where
  | None
  | Zlib
  | Lzma
  | Lzo
  deriving DecidableEq, Repr

/-- `header.rs`: `SavegameHeader` (compression, u16 version, u16 flags). -/
structure SavegameHeader where
  compression : CompressionType
  version : Nat
  flags : Nat
  deriving DecidableEq, Repr

/-- `header.rs`: `SavegameError`.  The source's `InvalidMagic(String)` carries
the lossy UTF-8 decoding of the magic bytes; here the raw 4 magic bytes are
carried instead. -/
inductive HeaderError where
  | core (e : CoreError)
  | invalidMagic (magic : List Nat)
  deriving DecidableEq, Repr

/-- `header.rs`: `SavegameHeader::parse`.  The magic comparisons use the ASCII
bytes of `"OTTD"`, `"OTTN"`, `"OTTZ"`, `"OTTX"`. -/
def SavegameHeader.parse (buf : List Nat) : Except HeaderError SavegameHeader :=
  match (BigEndianReader.new buf).read_exact 4 with
  | Except.error e => Except.error (HeaderError.core e)
  | Except.ok (magic, r1) =>
    match (if magic = [79, 84, 84, 68] then some CompressionType.Lzo
           else if magic = [79, 84, 84, 78] then some CompressionType.None
           else if magic = [79, 84, 84, 90] then some CompressionType.Zlib
           else if magic = [79, 84, 84, 88] then some CompressionType.Lzma
           else none) with
    | none => Except.error (HeaderError.invalidMagic magic)
    | some compression =>
      match r1.read_u16 with
      | Except.error e => Except.error (HeaderError.core e)
      | Except.ok (version, r2) =>
        match r2.read_u16 with
        | Except.error e => Except.error (HeaderError.core e)
        | Except.ok (flags, _) => Except.ok ⟨compression, version, flags⟩

/-- The magic bytes `SavegameHeader::write` emits for each compression type. -/
def magicOf : CompressionType → List Nat
  | CompressionType.Lzo => [79, 84, 84, 68]
  | CompressionType.None => [79, 84, 84, 78]
  | CompressionType.Zlib => [79, 84, 84, 90]
  | CompressionType.Lzma => [79, 84, 84, 88]

/-- `header.rs`: `SavegameHeader::write` — magic, then `u16::to_be_bytes` of
version and flags. -/
def SavegameHeader.write (h : SavegameHeader) : List Nat :=
  magicOf h.compression ++
    [h.version / 256 % 256, h.version % 256] ++
    [h.flags / 256 % 256, h.flags % 256]

/-! ## `savegame.rs` -/

/-- `savegame.rs`: `SavegameError`.  The `Io`/`Lzma` variants wrap external
library errors; their payloads are reduced to message strings. -/
inductive SavegameError where
  | core (e : CoreError)
  | header (e : HeaderError)
  | io (msg : String)
  | lzma (msg : String)
  | unsupportedCompression (c : CompressionType)
  | invalidFormat
  deriving DecidableEq, Repr

/-- `savegame.rs`: `ChunkData`. -/
inductive ChunkData where
  | Riff (data : List Nat)
  | Array (items : List (Nat × List Nat))
  | Table (header : TableHeader) (records : List (Nat × List Nat))
  deriving DecidableEq, Repr

/-- `savegame.rs`: `Chunk`.  The source stores `tag` as
`header.tag_string()`, the lossy UTF-8 decoding of the 4 tag bytes; here the
raw tag bytes are carried (they determine that string). -/
structure Chunk where
  tag : List Nat
  chunk_type : ChunkType
  data : ChunkData
  deriving DecidableEq, Repr

/-- `savegame.rs`: `SavegameReader` state after `new`. -/
structure SavegameReader where
  header : SavegameHeader
  decompressed_data : List Nat
  deriving DecidableEq, Repr

/-- `savegame.rs`: `SavegameReader::new`.  The zlib and xz decompressors are
external libraries, passed here as parameters `inflate` and `xz`; every
theorem below quantifies over them or avoids those branches (claims under
test only exercise `CompressionType.None` and the error paths). -/
def SavegameReader.new (inflate xz : List Nat → Except SavegameError (List Nat))
    (data : List Nat) : Except SavegameError SavegameReader :=
  match SavegameHeader.parse data with
  | Except.error e => Except.error (SavegameError.header e)
  | Except.ok header =>
    if data.length < 8 then Except.error SavegameError.invalidFormat
    else
      let compressed_data := data.drop 8
      match (match header.compression with
             | CompressionType.None => Except.ok compressed_data
             | CompressionType.Zlib => inflate compressed_data
             | CompressionType.Lzma => xz compressed_data
             | CompressionType.Lzo =>
               Except.error
                 (SavegameError.unsupportedCompression CompressionType.Lzo) :
             Except SavegameError (List Nat)) with
      | Except.error e => Except.error e
      | Except.ok decompressed_data => Except.ok ⟨header, decompressed_data⟩

/-- Chunk loop of `SavegameReader::read_chunks`.  The source tracks an
`offset` into `self.decompressed_data` and only ever uses it through
`&data[offset..]` and the test `offset + 5 > data.len()`; here the suffix
`rem = data.drop offset` is passed directly, which is the same information.
`none` models a panic (possible only via `TableHeader::parse`).  Fuel
dominates the iteration count at the call site: every iteration consumes at
least the 5 header bytes. -/
def read_chunks_loop (fuel : Nat) (rem : List Nat) (chunks : List Chunk) :
    Option (Except SavegameError (List Chunk)) :=
  match fuel with
  | 0 => none
  | fuel + 1 =>
    if rem.length < 5 then some (Except.ok chunks)
    else
      match ChunkHeader.parse rem with
      | Except.error e => some (Except.error (SavegameError.core e))
      | Except.ok (header, bytes_read) =>
        if header.is_end_marker then some (Except.ok chunks)
        else
          let body := rem.drop bytes_read
          match header.chunk_type with
          | ChunkType.Riff =>
            match parse_riff_chunk header body with
            | Except.error e => some (Except.error (SavegameError.core e))
            | Except.ok (d, consumed) =>
              read_chunks_loop fuel (body.drop consumed)
                (chunks ++ [⟨header.tag, header.chunk_type, ChunkData.Riff d⟩])
          | ChunkType.Array | ChunkType.SparseArray =>
            match parse_array_chunk header body with
            | Except.error e => some (Except.error (SavegameError.core e))
            | Except.ok (items, consumed) =>
              read_chunks_loop fuel (body.drop consumed)
                (chunks ++ [⟨header.tag, header.chunk_type, ChunkData.Array items⟩])
          | ChunkType.Table | ChunkType.SparseTable =>
            match parse_table_chunk header body with
            | none => none
            | some (Except.error e) => some (Except.error (SavegameError.core e))
            | some (Except.ok (th, records, consumed)) =>
              read_chunks_loop fuel (body.drop consumed)
                (chunks ++
                  [⟨header.tag, header.chunk_type, ChunkData.Table th records⟩])

/-- `savegame.rs`: `SavegameReader::read_chunks`. -/
def SavegameReader.read_chunks (r : SavegameReader) :
    Option (Except SavegameError (List Chunk)) :=
  read_chunks_loop (r.decompressed_data.length + 1) r.decompressed_data []

/-- `savegame.rs`: `SavegameWriter` state. -/
structure SavegameWriter where
  header : SavegameHeader
  chunks : List Nat
  deriving DecidableEq, Repr

/-- `savegame.rs`: `SavegameWriter::new` (flags are fixed to 0). -/
def SavegameWriter.new (version : Nat) (compression : CompressionType) :
    SavegameWriter :=
  ⟨⟨compression, version, 0⟩, []⟩

/-- `savegame.rs`: `SavegameWriter::add_riff_chunk`.  The source returns
`Result` but never errs, so the new writer state is returned directly.  The
mode byte computation `((length >> 24) as u8) << 4` is a `u8` shift, hence
the double `% 256`. -/
def SavegameWriter.add_riff_chunk (w : SavegameWriter) (tag data : List Nat) :
    SavegameWriter :=
  let length := data.length
  let mode_byte :=
    if length < 16777216 then 0
    else ((length >>> 24) % 256) <<< 4 % 256
  ⟨w.header,
    w.chunks ++ tag ++ [mode_byte] ++
      [(length >>> 16) &&& 255, (length >>> 8) &&& 255, length &&& 255] ++
      data⟩

/-- `savegame.rs`: `SavegameWriter::finalize`.  The zlib and lzma encoders
are external libraries, passed as parameters; the claims under test only
exercise `CompressionType.None`, whose path does not touch them. -/
def SavegameWriter.finalize (deflate lzc : List Nat → List Nat)
    (w : SavegameWriter) : Except SavegameError (List Nat) :=
  let chunks := w.chunks ++ [0, 0, 0, 0, 0]
  match (match w.header.compression with
         | CompressionType.None => Except.ok chunks
         | CompressionType.Zlib => Except.ok (deflate chunks)
         | CompressionType.Lzma => Except.ok (lzc chunks)
         | CompressionType.Lzo =>
           Except.error
             (SavegameError.unsupportedCompression CompressionType.Lzo) :
         Except SavegameError (List Nat)) with
  | Except.error e => Except.error e
  | Except.ok compressed => Except.ok (w.header.write ++ compressed)

/-! ## Specification-side encoders (used only in theorem statements/proofs) -/

/-- The bytes `add_riff_chunk` appends for one chunk. -/
def encodeRiff (tag data : List Nat) : List Nat :=
  tag ++
    [if data.length < 16777216 then 0
     else ((data.length >>> 24) % 256) <<< 4 % 256] ++
    [(data.length >>> 16) &&& 255, (data.length >>> 8) &&& 255,
      data.length &&& 255] ++
    data

/-- Folding `add_riff_chunk` over a chunk list (writer usage pattern). -/
def addAll (w : SavegameWriter) (cs : List (List Nat × List Nat)) :
    SavegameWriter :=
  cs.foldl (fun w p => w.add_riff_chunk p.1 p.2) w

/-- One sparse-array record on disk: gamma `size+1`, gamma explicit index,
then the record bytes. -/
def encodeSparseEntry (e : Nat × List Nat) : List Nat :=
  encode_gamma (e.2.length + 1) ++ encode_gamma e.1 ++ e.2

/-- A sparse-array chunk body: records in file order, then the 0 sentinel. -/
def encodeSparseBody (entries : List (Nat × List Nat)) : List Nat :=
  (entries.map encodeSparseEntry).flatten ++ [0]

theorem or_eq_add_of_mod (k a b : Nat) (ha : a % 2 ^ k = 0) (hb : b < 2 ^ k) :
    a ||| b = a + b := by
  obtain ⟨c, rfl⟩ := Nat.dvd_of_mod_eq_zero ha
  exact (Nat.mul_add_lt_is_or hb c).symm

theorem or_add8 (a b : Nat) (ha : a % 256 = 0) (hb : b < 256) : a ||| b = a + b :=
  or_eq_add_of_mod 8 a b (by norm_num [ha]) (by norm_num [hb])

theorem or_add16 (a b : Nat) (ha : a % 65536 = 0) (hb : b < 65536) :
    a ||| b = a + b :=
  or_eq_add_of_mod 16 a b (by norm_num [ha]) (by norm_num [hb])

theorem or_add24 (a b : Nat) (ha : a % 16777216 = 0) (hb : b < 16777216) :
    a ||| b = a + b :=
  or_eq_add_of_mod 24 a b (by norm_num [ha]) (by norm_num [hb])

theorem or_add32 (a b : Nat) (ha : a % 4294967296 = 0) (hb : b < 4294967296) :
    a ||| b = a + b :=
  or_eq_add_of_mod 32 a b (by norm_num [ha]) (by norm_num [hb])

theorem and_mask255 (a : Nat) : a &&& 255 = a % 256 := by
  simpa using Nat.and_pow_two_sub_one_eq_mod a 8

theorem and_mask63 (a : Nat) : a &&& 63 = a % 64 := by
  simpa using Nat.and_pow_two_sub_one_eq_mod a 6

theorem and_mask31 (a : Nat) : a &&& 31 = a % 32 := by
  simpa using Nat.and_pow_two_sub_one_eq_mod a 5

theorem and_mask15 (a : Nat) : a &&& 15 = a % 16 := by
  simpa using Nat.and_pow_two_sub_one_eq_mod a 4

theorem and_mask7 (a : Nat) : a &&& 7 = a % 8 := by
  simpa using Nat.and_pow_two_sub_one_eq_mod a 3

theorem shiftr8 (a : Nat) : a >>> 8 = a / 256 := by
  rw [Nat.shiftRight_eq_div_pow]

theorem shiftr16 (a : Nat) : a >>> 16 = a / 65536 := by
  rw [Nat.shiftRight_eq_div_pow]

theorem shiftr24 (a : Nat) : a >>> 24 = a / 16777216 := by
  rw [Nat.shiftRight_eq_div_pow]

theorem shiftl8 (a : Nat) : a <<< 8 = 256 * a := by
  rw [Nat.shiftLeft_eq, Nat.mul_comm]

theorem shiftl16 (a : Nat) : a <<< 16 = 65536 * a := by
  rw [Nat.shiftLeft_eq, Nat.mul_comm]

theorem shiftl24 (a : Nat) : a <<< 24 = 16777216 * a := by
  rw [Nat.shiftLeft_eq, Nat.mul_comm]

theorem shiftl32 (a : Nat) : a <<< 32 = 4294967296 * a := by
  rw [Nat.shiftLeft_eq, Nat.mul_comm]

theorem and128_iff : ∀ fb < 256, (fb &&& 128 = 0 ↔ fb < 128) := by decide

theorem and64_iff : ∀ fb < 256, (fb &&& 64 = 0 ↔ fb % 128 < 64) := by decide

theorem and32_iff : ∀ fb < 256, (fb &&& 32 = 0 ↔ fb % 64 < 32) := by decide

theorem and16_iff : ∀ fb < 256, (fb &&& 16 = 0 ↔ fb % 32 < 16) := by decide

theorem decode_encode_gamma_append (v : Nat) (hv : v < 4294967296)
    (rest : List Nat) :
    decode_gamma (encode_gamma v ++ rest) =
      Except.ok (v, (encode_gamma v).length) := by
  by_cases h1 : v ≤ 0x7F
  · have e : encode_gamma v = [v] := by unfold encode_gamma; rw [if_pos h1]
    rw [e]
    show decode_gamma (v :: rest) = Except.ok (v, 1)
    simp only [decode_gamma]
    rw [if_pos ((and128_iff v (by omega)).2 (by omega))]
  · by_cases h2 : v ≤ 0x3FFF
    · have hhi : (v >>> 8) % 256 = v / 256 := by rw [shiftr8]; omega
      have e : encode_gamma v = [128 + v / 256, v &&& 255] := by
        unfold encode_gamma
        rw [if_neg h1, if_pos h2, hhi,
          or_eq_add_of_mod 7 128 (v / 256) (by norm_num)
            (show v / 256 < 2 ^ 7 by norm_num; omega)]
      rw [e]
      have hfb : 128 + v / 256 < 256 := by omega
      show decode_gamma ((128 + v / 256) :: (v &&& 255) :: rest) =
        Except.ok (v, 2)
      simp only [decode_gamma]
      rw [if_neg (by rw [and128_iff _ hfb]; omega),
        if_pos (by rw [and64_iff _ hfb]; omega),
        if_neg (show ¬ ((128 + v / 256) :: (v &&& 255) :: rest).length < 2 by
          simp [List.length_cons])]
      simp only [List.getD_cons_succ, List.getD_cons_zero]
      rw [and_mask63, and_mask255]
      rw [show (128 + v / 256) % 64 = v / 256 by omega, shiftl8,
        or_add8 (256 * (v / 256)) (v % 256) (by omega) (by omega)]
      rw [show 256 * (v / 256) + v % 256 = v by omega]
    · by_cases h3 : v ≤ 0x1FFFFF
      · have hhi : (v >>> 16) % 256 = v / 65536 := by rw [shiftr16]; omega
        have e : encode_gamma v =
            [192 + v / 65536, v / 256 % 256, v &&& 255] := by
          unfold encode_gamma
          rw [if_neg h1, if_neg h2, if_pos h3, hhi, shiftr8, and_mask255,
            or_eq_add_of_mod 6 192 (v / 65536) (by norm_num)
              (show v / 65536 < 2 ^ 6 by norm_num; omega)]
        rw [e]
        have hfb : 192 + v / 65536 < 256 := by omega
        show decode_gamma
            ((192 + v / 65536) :: (v / 256 % 256) :: (v &&& 255) :: rest) =
          Except.ok (v, 3)
        simp only [decode_gamma]
        rw [if_neg (by rw [and128_iff _ hfb]; omega),
          if_neg (by rw [and64_iff _ hfb]; omega),
          if_pos (by rw [and32_iff _ hfb]; omega),
          if_neg (show ¬ ((192 + v / 65536) :: (v / 256 % 256) ::
              (v &&& 255) :: rest).length < 3 by simp [List.length_cons])]
        simp only [List.getD_cons_succ, List.getD_cons_zero]
        rw [and_mask31, and_mask255]
        rw [show (192 + v / 65536) % 32 = v / 65536 by omega, shiftl16, shiftl8,
          or_add16 (65536 * (v / 65536)) (256 * (v / 256 % 256)) (by omega)
            (by omega),
          or_add8 (65536 * (v / 65536) + 256 * (v / 256 % 256)) (v % 256)
            (by omega) (by omega)]
        rw [show 65536 * (v / 65536) + 256 * (v / 256 % 256) + v % 256 = v by
          omega]
      · by_cases h4 : v ≤ 0x0FFFFFFF
        · have hhi : (v >>> 24) % 256 = v / 16777216 := by rw [shiftr24]; omega
          have e : encode_gamma v =
              [224 + v / 16777216, v / 65536 % 256, v / 256 % 256,
                v &&& 255] := by
            unfold encode_gamma
            rw [if_neg h1, if_neg h2, if_neg h3, if_pos h4, hhi, shiftr8,
              shiftr16, and_mask255, and_mask255,
              or_eq_add_of_mod 5 224 (v / 16777216) (by norm_num)
                (show v / 16777216 < 2 ^ 5 by norm_num; omega)]
          rw [e]
          have hfb : 224 + v / 16777216 < 256 := by omega
          show decode_gamma
              ((224 + v / 16777216) :: (v / 65536 % 256) :: (v / 256 % 256) ::
                (v &&& 255) :: rest) =
            Except.ok (v, 4)
          simp only [decode_gamma]
          rw [if_neg (by rw [and128_iff _ hfb]; omega),
            if_neg (by rw [and64_iff _ hfb]; omega),
            if_neg (by rw [and32_iff _ hfb]; omega),
            if_pos (by rw [and16_iff _ hfb]; omega),
            if_neg (show ¬ ((224 + v / 16777216) :: (v / 65536 % 256) ::
                (v / 256 % 256) :: (v &&& 255) :: rest).length < 4 by
              simp [List.length_cons])]
          simp only [List.getD_cons_succ, List.getD_cons_zero]
          rw [and_mask15, and_mask255]
          rw [show (224 + v / 16777216) % 16 = v / 16777216 by omega, shiftl24,
            shiftl16, shiftl8,
            or_add24 (16777216 * (v / 16777216)) (65536 * (v / 65536 % 256))
              (by omega) (by omega),
            or_add16 (16777216 * (v / 16777216) + 65536 * (v / 65536 % 256))
              (256 * (v / 256 % 256)) (by omega) (by omega),
            or_add8 (16777216 * (v / 16777216) + 65536 * (v / 65536 % 256) +
                256 * (v / 256 % 256)) (v % 256) (by omega) (by omega)]
          rw [show 16777216 * (v / 16777216) + 65536 * (v / 65536 % 256) +
              256 * (v / 256 % 256) + v % 256 = v by omega]
        · have e : encode_gamma v =
              [240, v / 16777216 % 256, v / 65536 % 256, v / 256 % 256,
                v &&& 255] := by
            unfold encode_gamma
            rw [if_neg h1, if_neg h2, if_neg h3, if_neg h4, shiftr8, shiftr16,
              shiftr24, and_mask255, and_mask255, and_mask255]
          rw [e]
          show decode_gamma
              (240 :: (v / 16777216 % 256) :: (v / 65536 % 256) ::
                (v / 256 % 256) :: (v &&& 255) :: rest) =
            Except.ok (v, 5)
          simp only [decode_gamma]
          rw [if_neg (by rw [and128_iff 240 (by norm_num)]; omega),
            if_neg (by rw [and64_iff 240 (by norm_num)]; omega),
            if_neg (by rw [and32_iff 240 (by norm_num)]; omega),
            if_neg (by rw [and16_iff 240 (by norm_num)]; omega),
            if_neg (show ¬ (240 :: (v / 16777216 % 256) :: (v / 65536 % 256) ::
                (v / 256 % 256) :: (v &&& 255) :: rest).length < 5 by
              simp [List.length_cons])]
          simp only [List.getD_cons_succ, List.getD_cons_zero]
          rw [and_mask7, and_mask255]
          rw [show (240 : Nat) % 8 = 0 by norm_num, shiftl32, shiftl24,
            shiftl16, shiftl8, Nat.mul_zero,
            or_add32 0 (16777216 * (v / 16777216 % 256)) (by omega) (by omega),
            Nat.zero_add,
            or_add24 (16777216 * (v / 16777216 % 256)) (65536 * (v / 65536 % 256))
              (by omega) (by omega),
            or_add16 (16777216 * (v / 16777216 % 256) + 65536 * (v / 65536 % 256))
              (256 * (v / 256 % 256)) (by omega) (by omega),
            or_add8 (16777216 * (v / 16777216 % 256) + 65536 * (v / 65536 % 256) +
                256 * (v / 256 % 256)) (v % 256) (by omega) (by omega)]
          rw [show 16777216 * (v / 16777216 % 256) + 65536 * (v / 65536 % 256) +
              256 * (v / 256 % 256) + v % 256 = v by omega]


theorem encode_gamma_length (v : Nat) :
    (encode_gamma v).length =
      if v ≤ 127 then 1
      else if v ≤ 16383 then 2
      else if v ≤ 2097151 then 3
      else if v ≤ 268435455 then 4
      else 5 := by
  unfold encode_gamma
  split_ifs <;> simp

/-- **C2.** Gamma codec round trip and length-minimality: for every
`v ≤ 2^32 - 1`, `decode_gamma (encode_gamma v)` returns `Ok (v, n)` where `n`
is the length of `encode_gamma v`, and that length agrees with the canonical
minimal boundaries (1 byte up to 127, 2 up to 16383, 3 up to 2097151,
4 up to 268435455, 5 above). -/
theorem gamma_roundtrip_and_minimal_length (v : Nat) (hv : v ≤ 2 ^ 32 - 1) :
    decode_gamma (encode_gamma v) = Except.ok (v, (encode_gamma v).length) ∧
    (encode_gamma v).length =
      (if v ≤ 127 then 1
       else if v ≤ 16383 then 2
       else if v ≤ 2097151 then 3
       else if v ≤ 268435455 then 4
       else 5) := by
  constructor
  · have := decode_encode_gamma_append v (by omega) []
    simpa using this
  · exact encode_gamma_length v

/-- Witness for C2 at the concrete input `v = 268435456 = 2^28`. -/
theorem gamma_roundtrip_and_minimal_length_witness :
    decode_gamma (encode_gamma 268435456) =
        Except.ok (268435456, (encode_gamma 268435456).length) ∧
    (encode_gamma 268435456).length =
      (if 268435456 ≤ 127 then 1
       else if 268435456 ≤ 16383 then 2
       else if 268435456 ≤ 2097151 then 3
       else if 268435456 ≤ 268435455 then 4
       else 5) :=
  gamma_roundtrip_and_minimal_length 268435456 (by norm_num)

/-! ## Claim C3: `TableHeader::parse` totality (refuted — the code panics) -/

/-- **C3** is refuted by the code: `TableHeader::parse` hits out-of-bounds
accesses (modelled as `none`) on inputs the claim covers.  `[2]` declares a
header size of 2 with only 1 byte present, so the unguarded `buf[offset]`
panics; `[3, 2, 5]` declares a field whose gamma key length 5 exceeds the
remaining bytes, so the key slice `buf[offset..offset + key_length]`
panics. -/
theorem tableHeader_parse_panics_on_short_buffer :
    TableHeader.parse [2] = none ∧ TableHeader.parse [3, 2, 5] = none :=
  ⟨rfl, rfl⟩

/-! ## Claim C4: implicit index of zero-length records (refuted) -/

/-- **C4** is refuted by the code: in an Array chunk whose body is
`[0x01, 0x02, 0xAA, 0x00]` (a zero-length record, then a 1-byte record, then
the terminator), the 1-byte record — the entry with file-order position 1 —
is emitted with index 2, not 1: the zero-length record advances the implicit
counter twice (once when the index for the record is drawn, once more in the
empty-slot branch).  The Table loop behaves identically (body prefixed with
the minimal table header `[0x01]`). -/
theorem array_zero_length_record_skips_two_indices :
    parse_array_chunk ⟨[77, 65, 80, 83], ChunkType.Array, 1⟩ [1, 2, 170, 0] =
      Except.ok ([(2, [170])], 4) ∧
    parse_table_chunk ⟨[77, 65, 80, 83], ChunkType.Table, 3⟩ [1, 1, 2, 170, 0] =
      some (Except.ok (⟨[]⟩, [(2, [170])], 5)) :=
  ⟨rfl, rfl⟩

/-! ## Claim C5: `ChunkHeader::parse` contract -/

/-- **C5.** `ChunkHeader::parse`: fewer than 5 bytes fail with the truncation
error; at least 5 bytes with an all-zero 4-byte tag yield the end-marker
header consuming exactly 5 bytes; otherwise the 5th byte is the mode byte and
its low nibble 0,1,2,3,4 maps to Riff, Array, SparseArray, Table, SparseTable
(consuming exactly 5 bytes), while every low-nibble value in 5..=15 fails
with the invalid-chunk-type error. -/
theorem chunkHeader_parse_contract (buf : List Nat) :
    (buf.length < 5 →
      ChunkHeader.parse buf = Except.error CoreError.bufferTooSmall) ∧
    (5 ≤ buf.length → buf.take 4 = [0, 0, 0, 0] →
      ChunkHeader.parse buf =
        Except.ok (⟨[0, 0, 0, 0], ChunkType.Riff, 0⟩, 5)) ∧
    (5 ≤ buf.length → buf.take 4 ≠ [0, 0, 0, 0] →
      ((ChunkType.tryFrom (buf.getD 4 0)).isOk →
        ∃ t, ChunkType.tryFrom (buf.getD 4 0) = Except.ok t ∧
          ChunkHeader.parse buf =
            Except.ok (⟨buf.take 4, t, buf.getD 4 0⟩, 5)) ∧
      (∀ e, ChunkType.tryFrom (buf.getD 4 0) = Except.error e →
        ChunkHeader.parse buf = Except.error e)) ∧
    (∀ m : Nat,
      (m &&& 0x0F = 0 → ChunkType.tryFrom m = Except.ok ChunkType.Riff) ∧
      (m &&& 0x0F = 1 → ChunkType.tryFrom m = Except.ok ChunkType.Array) ∧
      (m &&& 0x0F = 2 → ChunkType.tryFrom m = Except.ok ChunkType.SparseArray) ∧
      (m &&& 0x0F = 3 → ChunkType.tryFrom m = Except.ok ChunkType.Table) ∧
      (m &&& 0x0F = 4 → ChunkType.tryFrom m = Except.ok ChunkType.SparseTable) ∧
      (5 ≤ m &&& 0x0F →
        ChunkType.tryFrom m =
          Except.error (CoreError.invalidData "Invalid chunk type"))) := by
  refine ⟨?_, ?_, ?_, ?_⟩
  · intro h
    unfold ChunkHeader.parse
    rw [if_pos h]
  · intro h5 h0
    unfold ChunkHeader.parse
    rw [if_neg (by omega)]
    simp [h0]
  · intro h5 h0
    constructor
    · intro hok
      cases ht : ChunkType.tryFrom (buf.getD 4 0) with
      | error e => rw [ht] at hok; simp [Except.isOk, Except.toBool] at hok
      | ok t =>
        refine ⟨t, rfl, ?_⟩
        unfold ChunkHeader.parse
        rw [if_neg (by omega), if_neg h0]
        simp only [ht]
    · intro e he
      unfold ChunkHeader.parse
      rw [if_neg (by omega), if_neg h0]
      simp only [he]
  · intro m
    refine ⟨?_, ?_, ?_, ?_, ?_, ?_⟩ <;> intro h
    · unfold ChunkType.tryFrom; rw [h]
    · unfold ChunkType.tryFrom; rw [h]
    · unfold ChunkType.tryFrom; rw [h]
    · unfold ChunkType.tryFrom; rw [h]
    · unfold ChunkType.tryFrom; rw [h]
    · have hlt : m &&& 15 < 16 := by rw [and_mask15]; omega
      unfold ChunkType.tryFrom
      generalize hk : m &&& 15 = k at h hlt
      interval_cases k <;> rfl

/-- Witness for C5 at the concrete input `[77, 65, 80, 83, 3, 9]`
(tag `"MAPS"`, mode byte 3 = Table). -/
theorem chunkHeader_parse_contract_witness :
    ChunkHeader.parse [77, 65, 80, 83, 3, 9] =
      Except.ok (⟨[77, 65, 80, 83], ChunkType.Table, 3⟩, 5) := by
  obtain ⟨t, ht, hp⟩ :=
    ((chunkHeader_parse_contract [77, 65, 80, 83, 3, 9]).2.2.1
      (by decide) (by decide)).1 (by rfl)
  have ht' : Except.ok (ε := CoreError) ChunkType.Table = Except.ok t := by
    rw [← ht]
    rfl
  injection ht' with h
  subst h
  exact hp

/-! ## Claim C10: end-marker detection ignores the fifth byte -/

/-- **C10.** For every buffer whose first four bytes are zero (and any fifth
byte `b` and tail), `ChunkHeader::parse` returns the end-marker header
(`is_end_marker = true`) consuming 5 bytes, without ever inspecting `b` —
e.g. `[0,0,0,0,0xFF]` is accepted as end-of-chunks. -/
theorem end_marker_ignores_fifth_byte (b : Nat) (rest : List Nat) :
    ChunkHeader.parse (0 :: 0 :: 0 :: 0 :: b :: rest) =
      Except.ok (⟨[0, 0, 0, 0], ChunkType.Riff, 0⟩, 5) ∧
    ChunkHeader.is_end_marker ⟨[0, 0, 0, 0], ChunkType.Riff, 0⟩ = true := by
  constructor
  · unfold ChunkHeader.parse
    rw [if_neg (by simp)]
    simp
  · decide


/-! ## Header lemmas and Claim C6 -/

theorem write_length (h : SavegameHeader) : h.write.length = 8 := by
  obtain ⟨c, vv, ff⟩ := h
  cases c <;> simp [SavegameHeader.write, magicOf]

/-- Parsing a written header, with an arbitrary tail appended, recovers the
header. -/
theorem parse_write_header (h : SavegameHeader) (hv : h.version < 65536)
    (hf : h.flags < 65536) (tail : List Nat) :
    SavegameHeader.parse (h.write ++ tail) = Except.ok h := by
  obtain ⟨c, vv, ff⟩ := h
  simp only at hv hf
  cases c <;>
  · simp only [SavegameHeader.write, magicOf, List.cons_append, List.nil_append,
      List.append_assoc]
    simp only [SavegameHeader.parse, BigEndianReader.new,
      BigEndianReader.read_exact, BigEndianReader.read_u16,
      BigEndianReader.remaining, List.length_cons]
    rw [if_neg (by omega)]
    simp +decide only [List.drop_zero, List.take_succ_cons, List.take_zero,
      List.drop_succ_cons, List.getD_cons_succ, List.getD_cons_zero,
      if_true, if_false, List.length_cons]
    rw [if_neg (by omega)]
    simp +decide only [List.drop_zero, List.take_succ_cons, List.take_zero,
      List.drop_succ_cons, List.getD_cons_succ, List.getD_cons_zero,
      if_true, if_false, List.length_cons]
    rw [if_neg (by omega)]
    simp +decide only [List.drop_zero, List.take_succ_cons, List.take_zero,
      List.drop_succ_cons, List.getD_cons_succ, List.getD_cons_zero,
      if_true, if_false, List.length_cons]
    rw [show 256 * (vv / 256 % 256) + vv % 256 = vv by omega,
      show 256 * (ff / 256 % 256) + ff % 256 = ff by omega]

/-- **C6.** Magic/compression bijection: `SavegameHeader::parse` maps the
magics OTTN, OTTZ, OTTX, OTTD to None, Zlib, Lzma, Lzo respectively, fails
with the invalid-magic error for every other 4-byte magic, and
`SavegameHeader::write` emits the inverse magic so that parsing a written
header returns it unchanged. -/
theorem savegameHeader_magic_bijection :
    (∀ h : SavegameHeader, h.version < 65536 → h.flags < 65536 →
      SavegameHeader.parse h.write = Except.ok h) ∧
    (∀ m rest : List Nat, m.length = 4 → 4 ≤ rest.length →
      ((m = [79, 84, 84, 78] → ∃ hdr, SavegameHeader.parse (m ++ rest) =
          Except.ok hdr ∧ hdr.compression = CompressionType.None) ∧
       (m = [79, 84, 84, 90] → ∃ hdr, SavegameHeader.parse (m ++ rest) =
          Except.ok hdr ∧ hdr.compression = CompressionType.Zlib) ∧
       (m = [79, 84, 84, 88] → ∃ hdr, SavegameHeader.parse (m ++ rest) =
          Except.ok hdr ∧ hdr.compression = CompressionType.Lzma) ∧
       (m = [79, 84, 84, 68] → ∃ hdr, SavegameHeader.parse (m ++ rest) =
          Except.ok hdr ∧ hdr.compression = CompressionType.Lzo) ∧
       (m ≠ [79, 84, 84, 78] → m ≠ [79, 84, 84, 90] → m ≠ [79, 84, 84, 88] →
        m ≠ [79, 84, 84, 68] →
          SavegameHeader.parse (m ++ rest) =
            Except.error (HeaderError.invalidMagic m)))) := by
  constructor
  · intro h hv hf
    have := parse_write_header h hv hf []
    simpa using this
  · intro m rest hm hr
    have hstep : ∀ c : CompressionType, m = magicOf c →
        ∃ hdr, SavegameHeader.parse (m ++ rest) = Except.ok hdr ∧
          hdr.compression = c := by
      intro c hc
      subst hc
      cases c <;>
      · simp only [magicOf, List.cons_append, List.nil_append]
        simp only [SavegameHeader.parse, BigEndianReader.new,
          BigEndianReader.read_exact, BigEndianReader.read_u16,
          BigEndianReader.remaining, List.length_cons]
        rw [if_neg (by omega)]
        simp +decide only [List.drop_zero, List.take_succ_cons, List.take_zero,
          List.drop_succ_cons, List.getD_cons_succ, List.getD_cons_zero,
          if_true, if_false, List.length_cons]
        rw [if_neg (by omega)]
        simp +decide only [List.drop_zero, List.take_succ_cons, List.take_zero,
          List.drop_succ_cons, List.getD_cons_succ, List.getD_cons_zero,
          if_true, if_false, List.length_cons]
        rw [if_neg (by omega)]
        simp +decide only [List.drop_zero, List.take_succ_cons, List.take_zero,
          List.drop_succ_cons, List.getD_cons_succ, List.getD_cons_zero,
          if_true, if_false, List.length_cons]
        exact ⟨_, rfl, rfl⟩
    refine ⟨fun h => hstep CompressionType.None h,
      fun h => hstep CompressionType.Zlib h,
      fun h => hstep CompressionType.Lzma h,
      fun h => hstep CompressionType.Lzo h, ?_⟩
    intro hN hZ hX hD
    simp only [SavegameHeader.parse, BigEndianReader.new,
      BigEndianReader.read_exact, BigEndianReader.remaining, List.drop_zero]
    rw [if_neg (by simp only [List.length_append, hm]; omega)]
    rw [show (m ++ rest).take 4 = m by rw [← hm, List.take_left]]
    dsimp only
    rw [if_neg hD, if_neg hN, if_neg hZ, if_neg hX]

/-- Witness for C6 at the concrete header (None, 295, 0). -/
theorem savegameHeader_magic_bijection_witness :
    SavegameHeader.parse (SavegameHeader.write ⟨CompressionType.None, 295, 0⟩) =
      Except.ok ⟨CompressionType.None, 295, 0⟩ :=
  savegameHeader_magic_bijection.1 ⟨CompressionType.None, 295, 0⟩
    (by norm_num) (by norm_num)

/-! ## Claim C8: RIFF body length rule -/

theorem getD_lt_256 (buf : List Nat) (hb : ∀ b ∈ buf, b < 256) (i : Nat) :
    buf.getD i 0 < 256 := by
  by_cases h : i < buf.length
  · rw [List.getD_eq_getElem buf 0 h]
    exact hb _ (List.getElem_mem h)
  · rw [List.getD_eq_default buf 0 (by omega)]
    norm_num

/-- **C8.** `parse_riff_chunk`: fewer than 3 bytes fail with a truncation
error; otherwise the 3-byte big-endian length is combined with the mode
byte's high nibble shifted into bits 24–27 — giving a length of at most
`2^28 - 1` — and the parse fails with a truncation error when fewer than
`length` payload bytes remain, else returns exactly those bytes having
consumed `3 + length` bytes. -/
theorem riff_body_length_rule (header : ChunkHeader) (buf : List Nat)
    (hct : header.chunk_type = ChunkType.Riff) (hmode : header.mode_byte < 256)
    (hbytes : ∀ b ∈ buf, b < 256) :
    (buf.length < 3 →
      parse_riff_chunk header buf = Except.error CoreError.bufferTooSmall) ∧
    (3 ≤ buf.length →
      ∀ length,
        ((buf.getD 0 0 <<< 16) ||| (buf.getD 1 0 <<< 8) ||| buf.getD 2 0) |||
            ((header.mode_byte >>> 4) <<< 24) = length →
        length ≤ 2 ^ 28 - 1 ∧
        (buf.length < 3 + length →
          parse_riff_chunk header buf = Except.error CoreError.bufferTooSmall) ∧
        (3 + length ≤ buf.length →
          parse_riff_chunk header buf =
            Except.ok ((buf.drop 3).take length, 3 + length))) := by
  constructor
  · intro h
    unfold parse_riff_chunk
    rw [if_pos h]
  · intro h3 length hL
    have hb0 := getD_lt_256 buf hbytes 0
    have hb1 := getD_lt_256 buf hbytes 1
    have hb2 := getD_lt_256 buf hbytes 2
    have hhi : header.mode_byte >>> 4 = header.mode_byte / 16 := by
      rw [Nat.shiftRight_eq_div_pow]
    have hval : ((buf.getD 0 0 <<< 16) ||| (buf.getD 1 0 <<< 8) |||
        buf.getD 2 0) ||| ((header.mode_byte >>> 4) <<< 24) =
        16777216 * (header.mode_byte / 16) +
          (65536 * buf.getD 0 0 + 256 * buf.getD 1 0 + buf.getD 2 0) := by
      rw [shiftl16, shiftl8, hhi, shiftl24,
        or_add16 (65536 * buf.getD 0 0) (256 * buf.getD 1 0) (by omega)
          (by omega),
        or_add8 (65536 * buf.getD 0 0 + 256 * buf.getD 1 0) (buf.getD 2 0)
          (by omega) (by omega),
        Nat.lor_comm,
        or_add24 (16777216 * (header.mode_byte / 16))
          (65536 * buf.getD 0 0 + 256 * buf.getD 1 0 + buf.getD 2 0)
          (by omega) (by omega)]
    refine ⟨?_, ?_, ?_⟩
    · rw [← hL, hval]
      omega
    · intro hlen
      unfold parse_riff_chunk
      rw [if_neg (by omega)]
      simp only [BigEndianReader.new, BigEndianReader.read_u24,
        BigEndianReader.remaining]
      rw [if_neg (by simp only [List.length, Nat.sub_zero]; omega)]
      simp only [Nat.zero_add, hL]
      rw [if_pos (by omega)]
    · intro hlen
      unfold parse_riff_chunk
      rw [if_neg (by omega)]
      simp only [BigEndianReader.new, BigEndianReader.read_u24,
        BigEndianReader.remaining]
      rw [if_neg (by simp only [List.length, Nat.sub_zero]; omega)]
      simp only [Nat.zero_add, hL]
      rw [if_neg (by omega)]

/-- Witness for C8 at header (tag "MAPS", Riff, mode 0) and buffer
`[0, 0, 2, 9, 9]` (declared length 2). -/
theorem riff_body_length_rule_witness :
    parse_riff_chunk ⟨[77, 65, 80, 83], ChunkType.Riff, 0⟩ [0, 0, 2, 9, 9] =
      Except.ok (([0, 0, 2, 9, 9].drop 3).take 2, 3 + 2) :=
  ((riff_body_length_rule ⟨[77, 65, 80, 83], ChunkType.Riff, 0⟩ [0, 0, 2, 9, 9]
    rfl (by norm_num) (by decide)).2 (by norm_num) 2 (by rfl)).2.2 (by norm_num)


/-! ## RIFF chunk-stream lemmas (shared by C9 and C1) -/

theorem shiftl4 (a : Nat) : a <<< 4 = 16 * a := by
  rw [Nat.shiftLeft_eq, Nat.mul_comm]

theorem shiftr4 (a : Nat) : a >>> 4 = a / 16 := by
  rw [Nat.shiftRight_eq_div_pow]

/-- The mode byte `add_riff_chunk` computes, in closed form, for payloads in
the format's supported range. -/
theorem riffMode_eq (len : Nat) (h : len ≤ 2 ^ 28 - 1) :
    (if len < 16777216 then 0 else ((len >>> 24) % 256) <<< 4 % 256) =
      16 * (len / 16777216) := by
  by_cases hc : len < 16777216
  · rw [if_pos hc]
    omega
  · rw [if_neg hc, shiftr24, shiftl4]
    have h1 : len / 16777216 < 16 := by omega
    have h2 : len / 16777216 % 256 = len / 16777216 := by omega
    rw [h2]
    omega

theorem encodeRiff_expand (t d rest : List Nat) :
    encodeRiff t d ++ rest =
      t ++ ((if d.length < 16777216 then 0
             else ((d.length >>> 24) % 256) <<< 4 % 256) ::
        ((d.length >>> 16) &&& 255) :: ((d.length >>> 8) &&& 255) ::
        (d.length &&& 255) :: (d ++ rest)) := by
  simp [encodeRiff]

theorem encodeRiff_length (t d : List Nat) (ht4 : t.length = 4) :
    (encodeRiff t d).length = 8 + d.length := by
  simp [encodeRiff, ht4]
  omega

/-- Parsing the header of an `add_riff_chunk`-encoded chunk. -/
theorem parse_encodeRiff_header (t d rest : List Nat) (ht4 : t.length = 4)
    (hne : t ≠ [0, 0, 0, 0]) (hlen : d.length ≤ 2 ^ 28 - 1) :
    ChunkHeader.parse (encodeRiff t d ++ rest) =
      Except.ok (⟨t, ChunkType.Riff, 16 * (d.length / 16777216)⟩, 5) := by
  rw [encodeRiff_expand, riffMode_eq d.length hlen]
  unfold ChunkHeader.parse
  rw [if_neg (by simp [ht4]; omega)]
  rw [show (t ++ (16 * (d.length / 16777216) ::
      ((d.length >>> 16) &&& 255) :: ((d.length >>> 8) &&& 255) ::
      (d.length &&& 255) :: (d ++ rest))).take 4 = t from by
    rw [← ht4, List.take_left]]
  rw [if_neg hne]
  rw [show (t ++ (16 * (d.length / 16777216) ::
      ((d.length >>> 16) &&& 255) :: ((d.length >>> 8) &&& 255) ::
      (d.length &&& 255) :: (d ++ rest))).getD 4 0 =
      16 * (d.length / 16777216) from by
    rw [List.getD_append_right _ _ _ _ (by omega), ht4]
    simp]
  simp only [show ChunkType.tryFrom (16 * (d.length / 16777216)) =
      Except.ok ChunkType.Riff from by
    unfold ChunkType.tryFrom
    rw [show 16 * (d.length / 16777216) &&& 15 = 0 from by
      rw [and_mask15]; omega]]

/-- Parsing the body of an `add_riff_chunk`-encoded chunk. -/
theorem parse_riff_of_encode (t d rest : List Nat)
    (hlen : d.length ≤ 2 ^ 28 - 1) :
    parse_riff_chunk ⟨t, ChunkType.Riff, 16 * (d.length / 16777216)⟩
      (((d.length >>> 16) &&& 255) :: ((d.length >>> 8) &&& 255) ::
        (d.length &&& 255) :: (d ++ rest)) =
      Except.ok (d, 3 + d.length) := by
  unfold parse_riff_chunk
  rw [if_neg (by simp)]
  simp only [BigEndianReader.new, BigEndianReader.read_u24,
    BigEndianReader.remaining, List.length_cons]
  rw [if_neg (by omega)]
  simp only [Nat.zero_add, List.getD_cons_succ, List.getD_cons_zero]
  rw [shiftr16, shiftr8, and_mask255, and_mask255, and_mask255, shiftr4,
    shiftl16, shiftl8,
    or_add16 (65536 * (d.length / 65536 % 256)) (256 * (d.length / 256 % 256))
      (by omega) (by omega),
    or_add8 (65536 * (d.length / 65536 % 256) + 256 * (d.length / 256 % 256))
      (d.length % 256) (by omega) (by omega),
    show 65536 * (d.length / 65536 % 256) + 256 * (d.length / 256 % 256) +
        d.length % 256 = d.length % 16777216 by omega,
    show 16 * (d.length / 16777216) / 16 = d.length / 16777216 by omega,
    shiftl24, Nat.lor_comm,
    or_add24 (16777216 * (d.length / 16777216)) (d.length % 16777216)
      (by omega) (by omega),
    show 16777216 * (d.length / 16777216) + d.length % 16777216 = d.length by
      omega]
  rw [if_neg (by simp; omega)]
  simp only [List.drop_succ_cons, List.drop_zero]
  rw [show (d ++ rest).take d.length = d from by
    rw [show (d ++ rest).take d.length = (d ++ rest).take d.length from rfl,
      List.take_left]]

/-- One iteration of `read_chunks_loop` across one RIFF chunk. -/
theorem read_chunks_riff_step (t d rest : List Nat) (chunks : List Chunk)
    (fuel : Nat) (ht4 : t.length = 4) (hne : t ≠ [0, 0, 0, 0])
    (hlen : d.length ≤ 2 ^ 28 - 1) :
    read_chunks_loop (fuel + 1) (encodeRiff t d ++ rest) chunks =
      read_chunks_loop fuel rest
        (chunks ++ [⟨t, ChunkType.Riff, ChunkData.Riff d⟩]) := by
  have hL : (encodeRiff t d ++ rest).length = 8 + d.length + rest.length := by
    simp [encodeRiff_length t d ht4]
  simp only [read_chunks_loop]
  rw [if_neg (by omega)]
  rw [parse_encodeRiff_header t d rest ht4 hne hlen]
  dsimp only
  rw [show (ChunkHeader.is_end_marker
      ⟨t, ChunkType.Riff, 16 * (d.length / 16777216)⟩) = false from by
    simp [ChunkHeader.is_end_marker, hne]]
  simp only [Bool.false_eq_true, if_false]
  rw [show (encodeRiff t d ++ rest).drop 5 =
      ((d.length >>> 16) &&& 255) :: ((d.length >>> 8) &&& 255) ::
        (d.length &&& 255) :: (d ++ rest) from by
    rw [encodeRiff_expand, riffMode_eq d.length hlen,
      show (5 : Nat) = t.length + 1 by omega,
      show (t ++ (16 * (d.length / 16777216) ::
        ((d.length >>> 16) &&& 255) :: ((d.length >>> 8) &&& 255) ::
        (d.length &&& 255) :: (d ++ rest))).drop (t.length + 1) =
        ((16 * (d.length / 16777216) ::
          ((d.length >>> 16) &&& 255) :: ((d.length >>> 8) &&& 255) ::
          (d.length &&& 255) :: (d ++ rest)).drop 1) from by
        rw [← List.drop_drop, List.drop_left],
      List.drop_succ_cons, List.drop_zero]]
  rw [parse_riff_of_encode t d rest hlen]
  dsimp only
  rw [show (((d.length >>> 16) &&& 255) :: ((d.length >>> 8) &&& 255) ::
      (d.length &&& 255) :: (d ++ rest)).drop (3 + d.length) =
      rest from by
    rw [show (3 + d.length) = d.length + 3 by omega]
    simp only [List.drop_succ_cons]
    rw [show (d ++ rest).drop d.length = rest from List.drop_left d rest]]

/-- The end-of-savegame marker stops `read_chunks_loop`. -/
theorem read_chunks_end_marker (chunks : List Chunk) (fuel : Nat) :
    read_chunks_loop (fuel + 1) [0, 0, 0, 0, 0] chunks =
      some (Except.ok chunks) := rfl

/-- A suffix shorter than a chunk header stops `read_chunks_loop` without
error. -/
theorem read_chunks_short_tail (rem : List Nat) (chunks : List Chunk)
    (fuel : Nat) (h : rem.length < 5) :
    read_chunks_loop (fuel + 1) rem chunks = some (Except.ok chunks) := by
  simp only [read_chunks_loop]
  rw [if_pos h]


/-! ## Claim C9: truncated-tail leniency -/

/-- **C9.** Whenever the position where the next chunk header would be read
has fewer than 5 bytes remaining, `read_chunks` returns `Ok` with the chunks
parsed so far instead of an error: (i) at any loop state, a remaining suffix
shorter than 5 bytes yields `Ok` of the accumulated chunks; (ii) a whole
payload shorter than 5 bytes yields `Ok []`; (iii) a payload that is one
complete RIFF chunk followed by a short tail — in particular no end marker at
all — yields exactly that chunk. -/
theorem truncated_tail_leniency :
    (∀ fuel rem chunks, rem.length < 5 →
      read_chunks_loop (fuel + 1) rem chunks = some (Except.ok chunks)) ∧
    (∀ r : SavegameReader, r.decompressed_data.length < 5 →
      r.read_chunks = some (Except.ok [])) ∧
    (∀ tag data tail : List Nat, tag.length = 4 → tag ≠ [0, 0, 0, 0] →
      data.length ≤ 2 ^ 28 - 1 → tail.length < 5 →
      SavegameReader.read_chunks
          ⟨⟨CompressionType.None, 295, 0⟩, encodeRiff tag data ++ tail⟩ =
        some (Except.ok [⟨tag, ChunkType.Riff, ChunkData.Riff data⟩])) := by
  refine ⟨fun fuel rem chunks h => read_chunks_short_tail rem chunks fuel h, ?_, ?_⟩
  · intro r h
    unfold SavegameReader.read_chunks
    exact read_chunks_short_tail _ _ _ h
  · intro tag data tail ht4 hne hlen htail
    unfold SavegameReader.read_chunks
    simp only
    have hL : (encodeRiff tag data ++ tail).length =
        8 + data.length + tail.length := by
      simp [encodeRiff_length tag data ht4]
    rw [hL, show 8 + data.length + tail.length + 1 =
      (7 + data.length + tail.length) + 1 + 1 by omega]
    rw [read_chunks_riff_step tag data tail [] _ ht4 hne hlen]
    rw [read_chunks_short_tail tail _ _ htail]
    simp

/-- Witness for C9 with the chunk (tag "TEST", body [1, 2]) and an empty
tail (no end marker at all). -/
theorem truncated_tail_leniency_witness :
    SavegameReader.read_chunks
        ⟨⟨CompressionType.None, 295, 0⟩, encodeRiff [84, 69, 83, 84] [1, 2] ++ []⟩ =
      some (Except.ok
        [⟨[84, 69, 83, 84], ChunkType.Riff, ChunkData.Riff [1, 2]⟩]) :=
  truncated_tail_leniency.2.2 [84, 69, 83, 84] [1, 2] []
    (by decide) (by decide) (by norm_num) (by decide)


/-! ## Claim C1: whole-file round trip with compression None -/

theorem addAll_spec (cs : List (List Nat × List Nat)) (w : SavegameWriter) :
    addAll w cs =
      ⟨w.header, w.chunks ++ (cs.map (fun p => encodeRiff p.1 p.2)).flatten⟩ := by
  induction cs generalizing w with
  | nil => simp [addAll]
  | cons c tl ih =>
    simp only [addAll, List.foldl_cons] at ih ⊢
    rw [ih]
    simp [SavegameWriter.add_riff_chunk, encodeRiff, List.append_assoc]

theorem encodeRiffs_flatten_ge (cs : List (List Nat × List Nat)) :
    cs.length ≤ ((cs.map (fun p => encodeRiff p.1 p.2)).flatten).length := by
  induction cs with
  | nil => simp
  | cons c tl ih =>
    simp only [List.map_cons, List.flatten_cons, List.length_append,
      List.length_cons]
    have : 1 ≤ (encodeRiff c.1 c.2).length := by simp [encodeRiff]; omega
    omega

/-- Reading a stream of `add_riff_chunk`-encoded chunks followed by the end
marker yields exactly those chunks in order. -/
theorem read_chunks_riff_chain (cs : List (List Nat × List Nat))
    (hcs : ∀ p ∈ cs, p.1.length = 4 ∧ p.1 ≠ [0, 0, 0, 0] ∧
      p.2.length ≤ 2 ^ 28 - 1) :
    ∀ fuel acc, cs.length + 1 ≤ fuel →
      read_chunks_loop fuel
        ((cs.map (fun p => encodeRiff p.1 p.2)).flatten ++ [0, 0, 0, 0, 0])
        acc =
        some (Except.ok (acc ++
          cs.map (fun p => ⟨p.1, ChunkType.Riff, ChunkData.Riff p.2⟩))) := by
  induction cs with
  | nil =>
    intro fuel acc hf
    obtain ⟨f, rfl⟩ : ∃ f, fuel = f + 1 := ⟨fuel - 1, by omega⟩
    simp only [List.map_nil, List.flatten_nil, List.nil_append]
    rw [read_chunks_end_marker]
    simp
  | cons c tl ih =>
    intro fuel acc hf
    obtain ⟨f, rfl⟩ : ∃ f, fuel = f + 1 := ⟨fuel - 1, by omega⟩
    simp only [List.map_cons, List.flatten_cons, List.append_assoc]
    obtain ⟨h1, h2, h3⟩ := hcs c (by simp)
    rw [read_chunks_riff_step c.1 c.2 _ acc f h1 h2 h3]
    rw [ih (fun p hp => hcs p (by simp [hp])) f _
      (by simp only [List.length_cons] at hf; omega)]
    simp

/-- **C1.** Whole-file round trip with compression None: building a file
with `SavegameWriter::new(v, None)`, adding any sequence of RIFF chunks
(4-byte nonzero tags, payloads of at most `2^28 - 1` bytes) in order,
finalizing, and reading the result back yields `header.version = v`,
`header.compression = None`, and exactly the same chunks (same tag bytes,
same payload bytes, all of chunk type Riff) in the same order. -/
theorem savegame_whole_file_roundtrip (v : Nat) (hv : v < 65536)
    (cs : List (List Nat × List Nat))
    (hcs : ∀ p ∈ cs, p.1.length = 4 ∧ p.1 ≠ [0, 0, 0, 0] ∧
      p.2.length ≤ 2 ^ 28 - 1)
    (inflate xz : List Nat → Except SavegameError (List Nat))
    (deflate lzc : List Nat → List Nat) :
    ∃ file reader,
      SavegameWriter.finalize deflate lzc
          (addAll (SavegameWriter.new v CompressionType.None) cs) =
        Except.ok file ∧
      SavegameReader.new inflate xz file = Except.ok reader ∧
      reader.header.version = v ∧
      reader.header.compression = CompressionType.None ∧
      reader.read_chunks = some (Except.ok
        (cs.map (fun p => ⟨p.1, ChunkType.Riff, ChunkData.Riff p.2⟩))) := by
  have hw : addAll (SavegameWriter.new v CompressionType.None) cs =
      ⟨⟨CompressionType.None, v, 0⟩,
        (cs.map (fun p => encodeRiff p.1 p.2)).flatten⟩ := by
    rw [addAll_spec]
    rfl
  refine ⟨SavegameHeader.write ⟨CompressionType.None, v, 0⟩ ++
      ((cs.map (fun p => encodeRiff p.1 p.2)).flatten ++ [0, 0, 0, 0, 0]),
    ⟨⟨CompressionType.None, v, 0⟩,
      (cs.map (fun p => encodeRiff p.1 p.2)).flatten ++ [0, 0, 0, 0, 0]⟩,
    ?_, ?_, rfl, rfl, ?_⟩
  · rw [hw]
    simp [SavegameWriter.finalize]
  · unfold SavegameReader.new
    rw [parse_write_header ⟨CompressionType.None, v, 0⟩ hv (by norm_num) _]
    dsimp only
    rw [if_neg (by simp [write_length])]
    have hdrop : (SavegameHeader.write ⟨CompressionType.None, v, 0⟩ ++
        ((cs.map (fun p : List Nat × List Nat => encodeRiff p.1 p.2)).flatten ++
          [0, 0, 0, 0, 0])).drop 8 =
        (cs.map (fun p : List Nat × List Nat =>
          encodeRiff p.1 p.2)).flatten ++ [0, 0, 0, 0, 0] := by
      rw [show (8 : Nat) =
        (SavegameHeader.write ⟨CompressionType.None, v, 0⟩).length from
          (write_length _).symm]
      exact List.drop_left _ _
    rw [hdrop]
  · unfold SavegameReader.read_chunks
    dsimp only
    rw [read_chunks_riff_chain cs hcs _ []
      (by
        have := encodeRiffs_flatten_ge cs
        simp only [List.length_append, List.length_cons, List.length_nil]
        omega)]
    simp

/-- Witness for C1 at version 295 with the single chunk
(tag "TEST", body "Hello, World!"). -/
theorem savegame_whole_file_roundtrip_witness :
    ∃ file reader,
      SavegameWriter.finalize id id
          (addAll (SavegameWriter.new 295 CompressionType.None)
            [([84, 69, 83, 84],
              [72, 101, 108, 108, 111, 44, 32, 87, 111, 114, 108, 100, 33])]) =
        Except.ok file ∧
      SavegameReader.new Except.ok Except.ok file = Except.ok reader ∧
      reader.header.version = 295 ∧
      reader.header.compression = CompressionType.None ∧
      reader.read_chunks = some (Except.ok
        ([([84, 69, 83, 84],
            [72, 101, 108, 108, 111, 44, 32, 87, 111, 114, 108, 100,
              33])].map
          (fun p => ⟨p.1, ChunkType.Riff, ChunkData.Riff p.2⟩))) :=
  savegame_whole_file_roundtrip 295 (by norm_num)
    [([84, 69, 83, 84],
      [72, 101, 108, 108, 111, 44, 32, 87, 111, 114, 108, 100, 33])]
    (by intro p hp; simp at hp; subst hp; refine ⟨rfl, by decide, by norm_num⟩)
    Except.ok Except.ok id id


/-! ## Claim C7: sparse record order -/

theorem encode_gamma_pos (v : Nat) : 1 ≤ (encode_gamma v).length := by
  unfold encode_gamma
  split_ifs <;> simp

/-- Record loop over a sparse-array body: records surface with their explicit
indices, in file order, and zero-size entries emit nothing. -/
theorem sparse_array_loop (entries : List (Nat × List Nat))
    (hent : ∀ e ∈ entries, e.1 < 4294967296 ∧ e.2.length + 1 < 4294967296) :
    ∀ fuel buf offset implicit acc,
      entries.length + 1 ≤ fuel →
      buf.drop offset = (entries.map encodeSparseEntry).flatten ++ [0] →
      ∀ hdr : ChunkHeader, hdr.chunk_type = ChunkType.SparseArray →
      arrayChunkLoop fuel hdr buf offset implicit acc =
        Except.ok (acc ++ entries.filter (fun e => decide (0 < e.2.length)),
          offset + ((entries.map encodeSparseEntry).flatten).length + 1) := by
  induction entries with
  | nil =>
    intro fuel buf offset implicit acc hf hdrop hdr hct
    obtain ⟨f, rfl⟩ : ∃ f, fuel = f + 1 := ⟨fuel - 1, by omega⟩
    simp only [List.map_nil, List.flatten_nil, List.nil_append] at hdrop
    simp only [arrayChunkLoop, hdrop]
    rw [show decode_gamma [0] = Except.ok (0, 1) from rfl]
    simp
  | cons e tl ih =>
    intro fuel buf offset implicit acc hf hdrop hdr hct
    obtain ⟨f, rfl⟩ : ∃ f, fuel = f + 1 := ⟨fuel - 1, by omega⟩
    obtain ⟨hi, hd⟩ := hent e (by simp)
    have htl : ∀ x ∈ tl, x.1 < 4294967296 ∧ x.2.length + 1 < 4294967296 :=
      fun x hx => hent x (by simp [hx])
    simp only [List.map_cons, List.flatten_cons, encodeSparseEntry,
      List.append_assoc] at hdrop
    have hdec1 : decode_gamma (buf.drop offset) =
        Except.ok (e.2.length + 1, (encode_gamma (e.2.length + 1)).length) := by
      rw [hdrop]
      exact decode_encode_gamma_append (e.2.length + 1) hd _
    have hdrop1 : buf.drop (offset + (encode_gamma (e.2.length + 1)).length) =
        encode_gamma e.1 ++ (e.2 ++ ((tl.map encodeSparseEntry).flatten ++ [0])) := by
      rw [← List.drop_drop, hdrop, List.drop_left]
    have hdec2 : decode_gamma
        (buf.drop (offset + (encode_gamma (e.2.length + 1)).length)) =
        Except.ok (e.1, (encode_gamma e.1).length) := by
      rw [hdrop1]
      exact decode_encode_gamma_append e.1 hi _
    have hdrop2 : buf.drop (offset + (encode_gamma (e.2.length + 1)).length +
        (encode_gamma e.1).length) =
        e.2 ++ ((tl.map encodeSparseEntry).flatten ++ [0]) := by
      rw [← List.drop_drop, hdrop1, List.drop_left]
    simp only [arrayChunkLoop, hdec1]
    rw [if_neg (by omega)]
    rw [hct]
    rw [if_pos rfl]
    simp only [hdec2]
    by_cases hsz : 0 < e.2.length
    · rw [if_pos (by omega)]
      have hblen : (buf.drop (offset + (encode_gamma (e.2.length + 1)).length +
          (encode_gamma e.1).length)).length =
          e.2.length + ((tl.map encodeSparseEntry).flatten.length + 1) := by
        rw [hdrop2]
        simp
      rw [if_neg (by
        rw [List.length_drop] at hblen
        omega)]
      rw [show (buf.drop (offset + (encode_gamma (e.2.length + 1)).length +
          (encode_gamma e.1).length)).take (e.2.length + 1 - 1) =
          e.2 from by
        rw [hdrop2, show e.2.length + 1 - 1 = e.2.length by omega,
          List.take_left]]
      have hdroptl : buf.drop (offset + (encode_gamma (e.2.length + 1)).length +
          (encode_gamma e.1).length + (e.2.length + 1 - 1)) =
          (tl.map encodeSparseEntry).flatten ++ [0] := by
        rw [← List.drop_drop, hdrop2,
          show e.2.length + 1 - 1 = e.2.length by omega, List.drop_left]
      rw [ih htl f buf _ implicit _ (by simp at hf; omega) hdroptl hdr hct]
      simp only [Except.ok.injEq, Prod.mk.injEq]
      refine ⟨?_, ?_⟩
      · simp [List.filter_cons, hsz, List.append_assoc]
      · simp only [List.map_cons, List.flatten_cons, encodeSparseEntry,
          List.length_append]
        omega
    · rw [if_neg (by omega)]
      rw [if_neg (by decide)]
      have hd0 : e.2 = [] := by
        rw [← List.length_eq_zero]
        omega
      have hdroptl : buf.drop (offset + (encode_gamma (e.2.length + 1)).length +
          (encode_gamma e.1).length) =
          (tl.map encodeSparseEntry).flatten ++ [0] := by
        rw [hdrop2, hd0, List.nil_append]
      rw [ih htl f buf _ implicit acc (by simp at hf; omega) hdroptl hdr hct]
      simp only [Except.ok.injEq, Prod.mk.injEq]
      refine ⟨?_, ?_⟩
      · rw [List.filter_cons,
          show decide (0 < e.2.length) = false from by rw [hd0]; rfl]
        simp
      · simp only [List.map_cons, List.flatten_cons, encodeSparseEntry,
          List.length_append, hd0, List.length_nil]
        omega


/-- The identical record loop of `parse_table_chunk` over a sparse-table body. -/
theorem sparse_table_loop (entries : List (Nat × List Nat))
    (hent : ∀ e ∈ entries, e.1 < 4294967296 ∧ e.2.length + 1 < 4294967296) :
    ∀ fuel buf offset implicit acc,
      entries.length + 1 ≤ fuel →
      buf.drop offset = (entries.map encodeSparseEntry).flatten ++ [0] →
      ∀ hdr : ChunkHeader, hdr.chunk_type = ChunkType.SparseTable →
      tableChunkLoop fuel hdr buf offset implicit acc =
        Except.ok (acc ++ entries.filter (fun e => decide (0 < e.2.length)),
          offset + ((entries.map encodeSparseEntry).flatten).length + 1) := by
  induction entries with
  | nil =>
    intro fuel buf offset implicit acc hf hdrop hdr hct
    obtain ⟨f, rfl⟩ : ∃ f, fuel = f + 1 := ⟨fuel - 1, by omega⟩
    simp only [List.map_nil, List.flatten_nil, List.nil_append] at hdrop
    simp only [tableChunkLoop, hdrop]
    rw [show decode_gamma [0] = Except.ok (0, 1) from rfl]
    simp
  | cons e tl ih =>
    intro fuel buf offset implicit acc hf hdrop hdr hct
    obtain ⟨f, rfl⟩ : ∃ f, fuel = f + 1 := ⟨fuel - 1, by omega⟩
    obtain ⟨hi, hd⟩ := hent e (by simp)
    have htl : ∀ x ∈ tl, x.1 < 4294967296 ∧ x.2.length + 1 < 4294967296 :=
      fun x hx => hent x (by simp [hx])
    simp only [List.map_cons, List.flatten_cons, encodeSparseEntry,
      List.append_assoc] at hdrop
    have hdec1 : decode_gamma (buf.drop offset) =
        Except.ok (e.2.length + 1, (encode_gamma (e.2.length + 1)).length) := by
      rw [hdrop]
      exact decode_encode_gamma_append (e.2.length + 1) hd _
    have hdrop1 : buf.drop (offset + (encode_gamma (e.2.length + 1)).length) =
        encode_gamma e.1 ++ (e.2 ++ ((tl.map encodeSparseEntry).flatten ++ [0])) := by
      rw [← List.drop_drop, hdrop, List.drop_left]
    have hdec2 : decode_gamma
        (buf.drop (offset + (encode_gamma (e.2.length + 1)).length)) =
        Except.ok (e.1, (encode_gamma e.1).length) := by
      rw [hdrop1]
      exact decode_encode_gamma_append e.1 hi _
    have hdrop2 : buf.drop (offset + (encode_gamma (e.2.length + 1)).length +
        (encode_gamma e.1).length) =
        e.2 ++ ((tl.map encodeSparseEntry).flatten ++ [0]) := by
      rw [← List.drop_drop, hdrop1, List.drop_left]
    simp only [tableChunkLoop, hdec1]
    rw [if_neg (by omega)]
    rw [hct]
    rw [if_pos rfl]
    simp only [hdec2]
    by_cases hsz : 0 < e.2.length
    · rw [if_pos (by omega)]
      have hblen : (buf.drop (offset + (encode_gamma (e.2.length + 1)).length +
          (encode_gamma e.1).length)).length =
          e.2.length + ((tl.map encodeSparseEntry).flatten.length + 1) := by
        rw [hdrop2]
        simp
      rw [if_neg (by
        rw [List.length_drop] at hblen
        omega)]
      rw [show (buf.drop (offset + (encode_gamma (e.2.length + 1)).length +
          (encode_gamma e.1).length)).take (e.2.length + 1 - 1) =
          e.2 from by
        rw [hdrop2, show e.2.length + 1 - 1 = e.2.length by omega,
          List.take_left]]
      have hdroptl : buf.drop (offset + (encode_gamma (e.2.length + 1)).length +
          (encode_gamma e.1).length + (e.2.length + 1 - 1)) =
          (tl.map encodeSparseEntry).flatten ++ [0] := by
        rw [← List.drop_drop, hdrop2,
          show e.2.length + 1 - 1 = e.2.length by omega, List.drop_left]
      rw [ih htl f buf _ implicit _ (by simp at hf; omega) hdroptl hdr hct]
      simp only [Except.ok.injEq, Prod.mk.injEq]
      refine ⟨?_, ?_⟩
      · simp [List.filter_cons, hsz, List.append_assoc]
      · simp only [List.map_cons, List.flatten_cons, encodeSparseEntry,
          List.length_append]
        omega
    · rw [if_neg (by omega)]
      rw [if_neg (by decide)]
      have hd0 : e.2 = [] := by
        rw [← List.length_eq_zero]
        omega
      have hdroptl : buf.drop (offset + (encode_gamma (e.2.length + 1)).length +
          (encode_gamma e.1).length) =
          (tl.map encodeSparseEntry).flatten ++ [0] := by
        rw [hdrop2, hd0, List.nil_append]
      rw [ih htl f buf _ implicit acc (by simp at hf; omega) hdroptl hdr hct]
      simp only [Except.ok.injEq, Prod.mk.injEq]
      refine ⟨?_, ?_⟩
      · rw [List.filter_cons,
          show decide (0 < e.2.length) = false from by rw [hd0]; rfl]
        simp
      · simp only [List.map_cons, List.flatten_cons, encodeSparseEntry,
          List.length_append, hd0, List.length_nil]
        omega


theorem sparse_flatten_ge (entries : List (Nat × List Nat)) :
    entries.length ≤ ((entries.map encodeSparseEntry).flatten).length := by
  induction entries with
  | nil => simp
  | cons e tl ih =>
    simp only [List.map_cons, List.flatten_cons, List.length_append,
      List.length_cons]
    have h1 := encode_gamma_pos (e.2.length + 1)
    have h2 := encode_gamma_pos e.1
    simp only [encodeSparseEntry, List.length_append]
    omega

/-- **C7.** Sparse record order and no placeholders: parsing a well-formed
SparseArray chunk body (and likewise the record part of a SparseTable chunk,
here behind the minimal table header byte `0x01`) emits exactly the records
whose explicit gamma-encoded indices were read from the file, in file order
(not sorted), and zero-size entries emit no record and do not affect the
indices of later records.  `encodeSparseBody` lays the entries out in the
given order, so e.g. entries at indices 5 then 2 are reported as 5 then 2. -/
theorem sparse_records_file_order (entries : List (Nat × List Nat))
    (hent : ∀ e ∈ entries, e.1 < 4294967296 ∧ e.2.length + 1 < 4294967296)
    (tag : List Nat) (m1 m2 : Nat) :
    parse_array_chunk ⟨tag, ChunkType.SparseArray, m1⟩
        (encodeSparseBody entries) =
      Except.ok (entries.filter (fun e => decide (0 < e.2.length)),
        (encodeSparseBody entries).length) ∧
    parse_table_chunk ⟨tag, ChunkType.SparseTable, m2⟩
        (1 :: encodeSparseBody entries) =
      some (Except.ok (⟨[]⟩,
        entries.filter (fun e => decide (0 < e.2.length)),
        (1 :: encodeSparseBody entries).length)) := by
  have hge := sparse_flatten_ge entries
  constructor
  · unfold parse_array_chunk
    rw [sparse_array_loop entries hent _ _ 0 0 []
      (by simp only [encodeSparseBody, List.length_append, List.length_cons,
        List.length_nil]; omega)
      (by simp only [encodeSparseBody, List.drop_zero]) _ rfl]
    simp only [encodeSparseBody, List.nil_append, List.length_append,
      List.length_cons, List.length_nil, Nat.zero_add]
  · unfold parse_table_chunk
    rw [show TableHeader.parse (1 :: encodeSparseBody entries) =
      some (Except.ok (⟨[]⟩, 1)) from rfl]
    dsimp only
    rw [sparse_table_loop entries hent _ _ 1 0 []
      (by simp only [encodeSparseBody, List.length_cons, List.length_append,
        List.length_nil]; omega)
      (by simp only [encodeSparseBody, List.drop_succ_cons, List.drop_zero])
      _ rfl]
    simp only [encodeSparseBody, List.nil_append, List.length_append,
      List.length_cons, List.length_nil, Nat.zero_add]
    rw [show 1 + (List.map encodeSparseEntry entries).flatten.length + 1 =
      (List.map encodeSparseEntry entries).flatten.length + 1 + 1 by omega]

/-- Witness for C7: two records at explicit indices 5 then 2 (in that file
order), plus a zero-size entry at index 9 in between, reported as [5, 2]. -/
theorem sparse_records_file_order_witness :
    parse_array_chunk ⟨[83, 80, 82, 83], ChunkType.SparseArray, 2⟩
        (encodeSparseBody [(5, [10]), (9, []), (2, [20])]) =
      Except.ok ([(5, [10]), (9, []), (2, [20])].filter
          (fun e => decide (0 < e.2.length)),
        (encodeSparseBody [(5, [10]), (9, []), (2, [20])]).length) ∧
    parse_table_chunk ⟨[83, 80, 82, 83], ChunkType.SparseTable, 4⟩
        (1 :: encodeSparseBody [(5, [10]), (9, []), (2, [20])]) =
      some (Except.ok (⟨[]⟩,
        [(5, [10]), (9, []), (2, [20])].filter
          (fun e => decide (0 < e.2.length)),
        (1 :: encodeSparseBody [(5, [10]), (9, []), (2, [20])]).length)) :=
  sparse_records_file_order [(5, [10]), (9, []), (2, [20])]
    (by intro e he; fin_cases he <;> norm_num) [83, 80, 82, 83] 2 4


end OpenTTDSave
